import Mathlib

/-!
A shallow embedding of the SAM-BA flash-programming client in
`src/Resources/py-ba/pyba.py`, together with theorems settling the claims
about it.

Modelling conventions:
* Machine words are `Nat`; the monitor commands issued over the serial link
  are recorded as an event trace (`Ev`), in issue order.
* Register reads (`EEFCFlash.readRegister`, used only by `waitFSR`) return
  successive values of an environment `env : Nat → Nat`, indexed by a
  running read counter `rc`; each read is also recorded in the trace with
  the register address it targeted.
* Python exceptions are modelled by `Err`; a raised exception aborts the
  computation, keeping the events already issued.  The unbounded `while`
  loop of `waitFSR` is given explicit fuel; running out of fuel is the
  distinct outcome `Out.spin` (the loop is still running).
* Two statements of the source raise `NameError` when reached, because they
  mention names that do not exist: `writeFCR1` evaluates the undefined name
  `cmdL` (line 350), and `writePage`'s out-of-range branch evaluates the
  undefined name `Excpetion` (line 299).  These are modelled by the errors
  `Err.nameErrorCmdL` and `Err.nameErrorExcpetion`.
* In Python, `++tries` parses as two unary-plus operators and does **not**
  increment `tries`; the embedding of `waitFSR` therefore keeps `tries`
  unchanged across iterations, exactly as the source does.
-/

namespace Pyba

/-- Python exceptions raised by the client, one constructor per raise site
(the source raises bare `Exception`s with distinct messages; the two
`nameError…` constructors are `NameError`s raised by typos in the source). -/
inductive Err where
  | unknownChip
  | fileTooBig
  | flashLock
  | flashCommand
  | nameErrorCmdL
  | nameErrorExcpetion
deriving DecidableEq

/-- Outcome of a (possibly fuelled) computation: normal result, raised
exception, or still looping when the fuel ran out. -/
inductive Out (α : Type) where
  | ok (a : α)
  | err (e : Err)
  | spin
deriving DecidableEq

/-- Monitor operations issued over the serial link, in order. -/
inductive Ev where
  | blockWrite (addr : Nat) (data : List Nat)
  | writeWord (addr val : Nat)
  | go (addr : Nat)
  | readReg (addr val : Nat)
deriving DecidableEq

/-- One row of `CHIP_TABLE` (the `name` string is omitted; it plays no role
in the algorithm).  Field order: flash base address, page count, page size,
plane count, lock-region count, RAM user base, RAM stack top, flash
controller register base, brown-out capability. -/
structure Chip where
  address : Nat
  pages : Nat
  size : Nat
  planes : Nat
  lock_regions : Nat
  user : Nat
  stack : Nat
  registers_addr : Nat
  can_brownout : Bool

/-- The `ATSAM3X8E` entry of `CHIP_TABLE` (id `0x285e0a60`). -/
def ATSAM3X8E : Chip :=
  ⟨0x80000, 2048, 256, 2, 32, 0x20001000, 0x20010000, 0x400e0a00, false⟩

namespace SamBA

/-- Model of `SamBA.writeWord`: one `W…#` monitor command. -/
def writeWord (addr val : Nat) : List Ev := [Ev.writeWord addr val]

/-- Model of `SamBA.go`: one `G…#` monitor command. -/
def go (addr : Nat) : List Ev := [Ev.go addr]

/-- Model of `SamBA.write`: one `S…#` block write streaming `data` to `addr`. -/
def write (addr : Nat) (data : List Nat) : List Ev := [Ev.blockWrite addr data]

end SamBA

namespace WordCopyApplet

def dst_ptr : Nat := 0x00000028
def reset_ptr : Nat := 0x00000024
def src_ptr : Nat := 0x0000002c
def stack_ptr : Nat := 0x00000020
def start_ptr : Nat := 0x00000000
def words_ptr : Nat := 0x00000030

/-- The applet's machine-code bytes (52 bytes). -/
def code : List Nat :=
  [0x09, 0x48, 0x0a, 0x49, 0x0a, 0x4a, 0x02, 0xe0, 0x08, 0xc9, 0x08, 0xc0,
   0x01, 0x3a, 0x00, 0x2a, 0xfa, 0xd1, 0x04, 0x48, 0x00, 0x28, 0x01, 0xd1,
   0x01, 0x48, 0x85, 0x46, 0x70, 0x47, 0xc0, 0x46, 0x00, 0x00, 0x00, 0x00,
   0x00, 0x00, 0x00, 0x00, 0x00, 0x00, 0x00, 0x00, 0x00, 0x00, 0x00, 0x00,
   0x00, 0x00, 0x00, 0x00]

/-- Model of `WordCopyApplet.setSource`: one word write into the source slot. -/
def setSource (base addr : Nat) : List Ev := SamBA.writeWord (base + src_ptr) addr

/-- Model of `WordCopyApplet.setDestination`: one word write into the destination slot. -/
def setDestination (base addr : Nat) : List Ev := SamBA.writeWord (base + dst_ptr) addr

/-- Model of `WordCopyApplet.run`: write the reset-vector slot to
`base + start_ptr + 1`, then execute at `base + stack_ptr`. -/
def run (base : Nat) : List Ev :=
  SamBA.writeWord (base + reset_ptr) (base + start_ptr + 1) ++ SamBA.go (base + stack_ptr)

end WordCopyApplet

namespace EEFCFlash

def EEFC_KEY : Nat := 0x5a

def EEFC0_FMR : Nat := 0x00
def EEFC0_FCR : Nat := 0x04
def EEFC0_FSR : Nat := 0x08

def EEFC1_FMR : Nat := 0x200
def EEFC1_FCR : Nat := 0x204
def EEFC1_FSR : Nat := 0x208

def EEFC_FCMD_EWP : Nat := 0x3

/-- Source: `self.page_buffer_a = user + applet.size()`. -/
def page_buffer_a (chip : Chip) : Nat := chip.user + WordCopyApplet.code.length

/-- Source: `self.page_buffer_b = page_buffer_a + size`. -/
def page_buffer_b (chip : Chip) : Nat := page_buffer_a chip + chip.size

/-- Model of `EEFCFlash.writeFCR0`: write `(key<<24) | (arg<<8) | cmd` to plane 0's
command register. -/
def writeFCR0 (chip : Chip) (cmd arg : Nat) : List Ev :=
  [Ev.writeWord (chip.registers_addr + EEFC0_FCR)
    ((EEFC_KEY <<< 24) ||| (arg <<< 8) ||| cmd)]

/-- Model of `EEFCFlash.writeFCR1`: the source (line 350) builds its command word
from the undefined name `cmdL`, so every call raises `NameError` before any
register write is issued. -/
def writeFCR1 (_cmd _arg : Nat) : Err := Err.nameErrorCmdL

/-- The body of `EEFCFlash.waitFSR`.  `tries` starts at 0 and — because
Python's `++tries` is two unary-plus operators, not an increment — is passed
through every iteration unchanged.  `fsr1` carries the variable initialised
to `0x1` and re-read per poll only on two-plane chips.  `rc` counts register
reads; `env rc` is the value the next read returns. -/
def waitFSRGo (planes regs : Nat) (env : Nat → Nat) (tries rc fsr1 fuel : Nat) :
    Out Unit × Nat × List Ev :=
  match fuel with
  | 0 => (Out.spin, rc, [])
  | fuel' + 1 =>
    if tries ≤ 500 then
      let fsr0 := env rc
      let e0 := [Ev.readReg (regs + EEFC0_FSR) fsr0]
      if fsr0 &&& (1 <<< 2) ≠ 0 then (Out.err Err.flashLock, rc + 1, e0)
      else if planes = 2 then
        let fsr1' := env (rc + 1)
        let e1 := e0 ++ [Ev.readReg (regs + EEFC1_FSR) fsr1']
        if fsr1' &&& (1 <<< 2) ≠ 0 then (Out.err Err.flashLock, rc + 2, e1)
        else if fsr0 &&& fsr1' &&& 0x1 ≠ 0 then (Out.ok (), rc + 2, e1)
        else if tries > 500 then (Out.err Err.flashCommand, rc + 2, e1)
        else
          let r := waitFSRGo planes regs env tries (rc + 2) fsr1' fuel'
          (r.1, r.2.1, e1 ++ r.2.2)
      else
        if fsr0 &&& fsr1 &&& 0x1 ≠ 0 then (Out.ok (), rc + 1, e0)
        else if tries > 500 then (Out.err Err.flashCommand, rc + 1, e0)
        else
          let r := waitFSRGo planes regs env tries (rc + 1) fsr1 fuel'
          (r.1, r.2.1, e0 ++ r.2.2)
    else (Out.ok (), rc, [])

/-- Model of `EEFCFlash.waitFSR`: enter the loop with `tries = 0` and `fsr1 = 0x1`. -/
def waitFSR (planes regs : Nat) (env : Nat → Nat) (rc fuel : Nat) :
    Out Unit × Nat × List Ev :=
  waitFSRGo planes regs env 0 rc 1 fuel

/-- Model of `EEFCFlash.writePage`: range check, configure the applet, poll status,
trigger the copy, then issue the Enhanced-Write-Page command on the plane
holding `page`.  The out-of-range branch raises `NameError` (`Excpetion` is
undefined at line 299); the second-plane branch raises `NameError` inside
`writeFCR1` (`cmdL` is undefined at line 350). -/
def writePage (chip : Chip) (env : Nat → Nat) (fuel onBuf rc page : Nat) :
    Out Unit × Nat × List Ev :=
  if page ≥ chip.pages then (Out.err Err.nameErrorExcpetion, rc, [])
  else
    let page_size := chip.size
    let page_addr := chip.address + page * page_size
    let t1 := WordCopyApplet.setDestination chip.user page_addr ++
              WordCopyApplet.setSource chip.user onBuf
    let w := waitFSR chip.planes chip.registers_addr env rc fuel
    match w.1 with
    | Out.ok _ =>
      let t2 := WordCopyApplet.run chip.user
      if chip.planes = 2 ∧ page ≥ chip.pages / 2 then
        (Out.err (writeFCR1 EEFC_FCMD_EWP (page - chip.pages / 2)), w.2.1,
         t1 ++ w.2.2 ++ t2)
      else
        (Out.ok (), w.2.1,
         t1 ++ w.2.2 ++ t2 ++ writeFCR0 chip EEFC_FCMD_EWP page)
    | Out.err e => (Out.err e, w.2.1, t1 ++ w.2.2)
    | Out.spin => (Out.spin, w.2.1, t1 ++ w.2.2)

/-- The `for page_num in range(0, page_count)` loop of `EEFCFlash.write`.
`rest` is the unread tail of the image, `k` the remaining iteration count,
`onBuf` the current staging buffer, `rc` the running read counter. -/
def writeLoop (chip : Chip) (env : Nat → Nat) (fuel : Nat)
    (rest : List Nat) (k page_num onBuf rc : Nat) : Out Unit × List Ev :=
  match k with
  | 0 => (Out.ok (), [])
  | k' + 1 =>
    let page_size := chip.size
    let chunk := rest.take page_size
    let amt_read := chunk.length
    let data := if amt_read < page_size
                then chunk ++ List.replicate (page_size - amt_read) 0
                else chunk
    let t0 := SamBA.write onBuf data
    let p := writePage chip env fuel onBuf rc page_num
    match p.1 with
    | Out.ok _ =>
      if amt_read < page_size then
        -- `done` was set: the loop breaks after this page (the buffer toggle
        -- Python performs just before the break has no further effect)
        (Out.ok (), t0 ++ p.2.2)
      else
        let onBuf' := if onBuf = page_buffer_a chip
                      then page_buffer_b chip else page_buffer_a chip
        let r := writeLoop chip env fuel (rest.drop page_size) k' (page_num + 1) onBuf' p.2.1
        (r.1, t0 ++ p.2.2 ++ r.2)
    | Out.err e => (Out.err e, t0 ++ p.2.2)
    | Out.spin => (Out.spin, t0 ++ p.2.2)

/-- Model of `EEFCFlash.write`: compute `page_count = ceil(file_size / page_size)`,
fail if it exceeds the chip's page count, otherwise run the page loop
starting on buffer A. -/
def write (chip : Chip) (env : Nat → Nat) (fuel : Nat) (file : List Nat) :
    Out Unit × List Ev :=
  let file_size := file.length
  let page_size := chip.size
  let page_count := (file_size + page_size - 1) / page_size
  if page_count > chip.pages then (Out.err Err.fileTooBig, [])
  else writeLoop chip env fuel file page_count 0 (page_buffer_a chip) 0

end EEFCFlash

/-- A small two-plane profile (4 pages of 4 bytes) used to exercise the
second-plane code path at a scale the kernel can evaluate.  `EEFCFlash`
takes its chip data as a parameter, so its behaviour is defined for any
profile of this shape. -/
def tinyChip : Chip := ⟨0x100, 4, 4, 2, 0, 0x1000, 0x3000, 0x2000, false⟩

/-- The staging buffer the page loop uses for its `k`-th streamed page:
buffer A for even `k`, buffer B for odd `k`. -/
def altBuf (chip : Chip) (k : Nat) : Nat :=
  if k % 2 = 0 then EEFCFlash.page_buffer_a chip else EEFCFlash.page_buffer_b chip

/-- Addresses of the block writes in a trace, in order. -/
def bwAddrs (t : List Ev) : List Nat :=
  t.filterMap (fun e => match e with
    | Ev.blockWrite addr _ => some addr
    | _ => none)

/-- Payloads of the block writes in a trace, in order. -/
def bwData (t : List Ev) : List (List Nat) :=
  t.filterMap (fun e => match e with
    | Ev.blockWrite _ data => some data
    | _ => none)

/-- Values written into the applet's source slot, in order. -/
def srcVals (chip : Chip) (t : List Ev) : List Nat :=
  t.filterMap (fun e => match e with
    | Ev.writeWord addr v =>
        if addr = chip.user + WordCopyApplet.src_ptr then some v else none
    | _ => none)

/-- Values written into the applet's destination slot, in order. -/
def dstVals (chip : Chip) (t : List Ev) : List Nat :=
  t.filterMap (fun e => match e with
    | Ev.writeWord addr v =>
        if addr = chip.user + WordCopyApplet.dst_ptr then some v else none
    | _ => none)

/-- Values written to the flash-controller register at offset `off`, in order. -/
def fcrWrites (regs off : Nat) (t : List Ev) : List Nat :=
  t.filterMap (fun e => match e with
    | Ev.writeWord addr v => if addr = regs + off then some v else none
    | _ => none)

/-- Poll `j` of a two-plane `waitFSR` run is quiet: neither plane shows the
lock bit and the planes are not simultaneously ready, so the loop continues. -/
def quietPoll2 (env : Nat → Nat) (j : Nat) : Prop :=
  env (2 * j) &&& (1 <<< 2) = 0 ∧ env (2 * j + 1) &&& (1 <<< 2) = 0 ∧
  env (2 * j) &&& env (2 * j + 1) &&& 0x1 = 0

/-- Poll `j` of a one-plane `waitFSR` run is quiet: plane 0 shows neither
the lock bit nor the ready bit. -/
def quietPoll1 (env : Nat → Nat) (j : Nat) : Prop :=
  env j &&& (1 <<< 2) = 0 ∧ env j &&& 0x1 = 0


/-! ## Helper lemmas -/

/-- Lemma: `waitFSRGo` can only finish as success, still-looping, or the lock
error: the `Flash command error` branch sits inside the loop body, which is
reached only when `tries ≤ 500`, yet fires only when `tries > 500`, and
`tries` never changes. -/
lemma waitFSRGo_results (planes regs : Nat) (env : Nat → Nat) :
    ∀ fuel tries rc fsr1,
      (EEFCFlash.waitFSRGo planes regs env tries rc fsr1 fuel).1 = Out.ok ()
    ∨ (EEFCFlash.waitFSRGo planes regs env tries rc fsr1 fuel).1 = Out.spin
    ∨ (EEFCFlash.waitFSRGo planes regs env tries rc fsr1 fuel).1 = Out.err Err.flashLock := by
  intro fuel
  induction fuel with
  | zero =>
    intro tries rc fsr1
    exact Or.inr (Or.inl rfl)
  | succ f ih =>
    intro tries rc fsr1
    simp only [EEFCFlash.waitFSRGo]
    split_ifs with h1 h2 h3 h4 h5 h6 h7 h8
    all_goals first
      | omega
      | exact Or.inl rfl
      | exact Or.inr (Or.inl rfl)
      | exact Or.inr (Or.inr rfl)
      | exact ih tries (rc + 2) (env (rc + 1))
      | exact ih tries (rc + 1) fsr1


/-- Restatement for `waitFSR` of `waitFSRGo_results`. -/
lemma waitFSR_results (planes regs : Nat) (env : Nat → Nat) (rc fuel : Nat) :
    (EEFCFlash.waitFSR planes regs env rc fuel).1 = Out.ok ()
  ∨ (EEFCFlash.waitFSR planes regs env rc fuel).1 = Out.spin
  ∨ (EEFCFlash.waitFSR planes regs env rc fuel).1 = Out.err Err.flashLock :=
  waitFSRGo_results planes regs env fuel 0 rc 1

/-- When `page` is in range, the only exceptions `writePage` can raise are
the lock error (from `waitFSR`) and the `cmdL` `NameError` (from
`writeFCR1`). -/
lemma writePage_err_cases (chip : Chip) (env : Nat → Nat) (fuel onBuf rc page : Nat)
    (hlt : page < chip.pages) (e : Err)
    (hw : (EEFCFlash.writePage chip env fuel onBuf rc page).1 = Out.err e) :
    e = Err.flashLock ∨ e = Err.nameErrorCmdL := by
  simp only [EEFCFlash.writePage] at hw
  rw [if_neg (by omega : ¬page ≥ chip.pages)] at hw
  split at hw
  · split_ifs at hw with hpl
    simp only [EEFCFlash.writeFCR1, Out.err.injEq] at hw
    exact Or.inr hw.symm
  · rename_i e' heq
    rcases waitFSR_results chip.planes chip.registers_addr env rc fuel with h | h | h
    · rw [heq] at h; simp at h
    · rw [heq] at h; simp at h
    · rw [heq] at h
      have he' : e' = Err.flashLock := by simpa using h
      have he : e' = e := by simpa using hw
      left
      rw [← he, he']
  · simp at hw

/-- Under the loop invariant `page_num + k ≤ chip.pages`, the page loop
never reaches `writePage`'s out-of-range branch. -/
lemma writeLoop_no_outOfRange (chip : Chip) (env : Nat → Nat) (fuel : Nat) :
    ∀ k rest page_num onBuf rc, page_num + k ≤ chip.pages →
      (EEFCFlash.writeLoop chip env fuel rest k page_num onBuf rc).1 ≠
        Out.err Err.nameErrorExcpetion := by
  intro k
  induction k with
  | zero =>
    intro rest pn onBuf rc h
    simp [EEFCFlash.writeLoop]
  | succ k' ih =>
    intro rest pn onBuf rc h
    simp only [EEFCFlash.writeLoop]
    rcases hp : (EEFCFlash.writePage chip env fuel onBuf rc pn).1 with a | e | _
    · split_ifs with hdone hbuf
      · simp
      · intro hcon
        exact ih _ (pn + 1) _ _ (by omega) hcon
      · intro hcon
        exact ih _ (pn + 1) _ _ (by omega) hcon
    · intro hcon
      have he : e = Err.nameErrorExcpetion := by simpa using hcon
      rcases writePage_err_cases chip env fuel onBuf rc pn (by omega) e hp with h1 | h1 <;>
        rw [h1] at he <;> exact Err.noConfusion he
    · simp

/-- While the status registers never show the ready bit (bit 0) nor the
lock bit (bit 2), each `waitFSR` iteration neither raises nor returns. -/
lemma waitFSRGo_neverReady (planes regs : Nat) (env : Nat → Nat)
    (h : ∀ i, env i &&& (1 <<< 2) = 0 ∧ env i &&& 0x1 = 0) :
    ∀ fuel rc fsr1, (EEFCFlash.waitFSRGo planes regs env 0 rc fsr1 fuel).1 = Out.spin := by
  intro fuel
  induction fuel with
  | zero => intro rc fsr1; rfl
  | succ f ih =>
    intro rc fsr1
    simp only [EEFCFlash.waitFSRGo]
    rw [if_pos (by omega : (0 : Nat) ≤ 500)]
    rw [if_neg (not_not_intro (h rc).1)]
    by_cases hp : planes = 2
    · rw [if_pos hp]
      rw [if_neg (not_not_intro (h (rc + 1)).1)]
      have hready : env rc &&& env (rc + 1) &&& 0x1 = 0 := by
        rw [Nat.and_comm (env rc) (env (rc + 1)), Nat.and_assoc, (h rc).2, Nat.and_zero]
      rw [if_neg (not_not_intro hready)]
      rw [if_neg (by omega : ¬(0 : Nat) > 500)]
      exact ih (rc + 2) (env (rc + 1))
    · rw [if_neg hp]
      have hready : env rc &&& fsr1 &&& 0x1 = 0 := by
        rw [Nat.and_comm (env rc) fsr1, Nat.and_assoc, (h rc).2, Nat.and_zero]
      rw [if_neg (not_not_intro hready)]
      rw [if_neg (by omega : ¬(0 : Nat) > 500)]
      exact ih (rc + 1) fsr1

/-! ## Claims -/

/-- Claim C1 (code bug): when the sampled status values never have bit 0
(ready) nor bit 2 (lock error) set, `waitFSR` does not stop after 500
iterations with the timeout error — it is still looping after any number of
iterations, because Python's `++tries` never increments `tries`. -/
theorem waitFSR_neverReady_loops_forever (env : Nat → Nat)
    (h : ∀ i, env i &&& (1 <<< 2) = 0 ∧ env i &&& 0x1 = 0)
    (planes regs rc fuel : Nat) :
    (EEFCFlash.waitFSR planes regs env rc fuel).1 = Out.spin :=
  waitFSRGo_neverReady planes regs env h fuel rc 1

/-- Witness for C1: with both status registers always reading 0, `waitFSR`
on the two-plane `ATSAM3X8E` register file is still looping after 501
iterations, where the claim demands it to have raised the timeout at 500. -/
theorem waitFSR_neverReady_loops_forever_witness :
    (∀ i, ((fun _ => 0 : Nat → Nat) i) &&& (1 <<< 2) = 0 ∧
          ((fun _ => 0 : Nat → Nat) i) &&& 0x1 = 0)
  ∧ (EEFCFlash.waitFSR 2 0x400e0a00 (fun _ => 0) 0 501).1 = Out.spin :=
  ⟨fun _ => ⟨by simp, by simp⟩,
   waitFSR_neverReady_loops_forever (fun _ => 0) (fun _ => ⟨by simp, by simp⟩) 2 0x400e0a00 0 501⟩

/-- Claim C7 (code bug): the `Flash command error` (timeout) exception is
never surfaced, from any state, for any sampled status values and any
number of iterations: its guard `tries > 500` can only be reached under the
loop guard `tries ≤ 500`, and `tries` never changes.  The timeout fatal
condition therefore has no distinct surfaced failure — it is an infinite
loop instead. -/
theorem waitFSR_timeout_never_surfaced (planes regs : Nat) (env : Nat → Nat)
    (tries rc fsr1 fuel : Nat) :
    (EEFCFlash.waitFSRGo planes regs env tries rc fsr1 fuel).1 ≠
      Out.err Err.flashCommand := by
  rcases waitFSRGo_results planes regs env fuel tries rc fsr1 with h | h | h <;>
    rw [h] <;> simp

/-- Claim C10: once `write`'s capacity check has passed
(`ceil(file_size / page_size) ≤ chip.pages`), every page index handed to
`writePage` is in range, so the out-of-range branch (which would raise the
`Excpetion` `NameError`) is never executed. -/
theorem write_no_outOfRange (chip : Chip) (env : Nat → Nat) (fuel : Nat) (file : List Nat)
    (hcap : (file.length + chip.size - 1) / chip.size ≤ chip.pages) :
    (EEFCFlash.write chip env fuel file).1 ≠ Out.err Err.nameErrorExcpetion := by
  simp only [EEFCFlash.write]
  rw [if_neg (by omega : ¬(file.length + chip.size - 1) / chip.size > chip.pages)]
  exact writeLoop_no_outOfRange chip env fuel _ file 0 _ 0 (by omega)

/-- Witness for C10: a 5-byte image on the 4-page test profile passes the
capacity check and programming never hits the out-of-range branch. -/
theorem write_no_outOfRange_witness :
    ((List.replicate 5 1 : List Nat).length + tinyChip.size - 1) / tinyChip.size ≤ tinyChip.pages
  ∧ (EEFCFlash.write tinyChip (fun _ => 1) 1 (List.replicate 5 1)).1 ≠
      Out.err Err.nameErrorExcpetion :=
  ⟨by decide, write_no_outOfRange tinyChip (fun _ => 1) 1 (List.replicate 5 1) (by decide)⟩

/-- Claim C8: `run()` issues exactly two monitor operations, in order: a
word write of `base + start_ptr + 1` (Thumb bit set) into the reset-vector
slot at `base + reset_ptr`, then a go command at `base + stack_ptr`; and
the patch offsets are `0x24`, `0x20` and `0x00` as in the source. -/
theorem appletRun_two_operations (base : Nat) :
    WordCopyApplet.run base =
      [Ev.writeWord (base + WordCopyApplet.reset_ptr) (base + WordCopyApplet.start_ptr + 1),
       Ev.go (base + WordCopyApplet.stack_ptr)]
  ∧ (WordCopyApplet.run base).length = 2
  ∧ WordCopyApplet.reset_ptr = 0x24
  ∧ WordCopyApplet.stack_ptr = 0x20
  ∧ WordCopyApplet.start_ptr = 0 :=
  ⟨rfl, rfl, rfl, rfl, rfl⟩

/-- Claim C2 (code bug): on the two-plane `ATSAM3X8E` (2048 pages), for a
page in the lower half the Enhanced-Write-Page word written to plane 0's
command register is `(0x5a <<< 24) ||| (page <<< 8) ||| 0x3` as claimed,
but for a page in the upper half no word at all reaches plane 1's command
register: `writeFCR1` raises the `cmdL` `NameError` first. -/
theorem writePage_secondPlane_nameError :
    (EEFCFlash.writePage ATSAM3X8E (fun _ => 1) 1 (EEFCFlash.page_buffer_a ATSAM3X8E) 0 1024).1
      = Out.err Err.nameErrorCmdL
  ∧ fcrWrites ATSAM3X8E.registers_addr EEFCFlash.EEFC1_FCR
      (EEFCFlash.writePage ATSAM3X8E (fun _ => 1) 1 (EEFCFlash.page_buffer_a ATSAM3X8E) 0 1024).2.2
      = []
  ∧ (EEFCFlash.writePage ATSAM3X8E (fun _ => 1) 1 (EEFCFlash.page_buffer_a ATSAM3X8E) 0 5).1
      = Out.ok ()
  ∧ fcrWrites ATSAM3X8E.registers_addr EEFCFlash.EEFC0_FCR
      (EEFCFlash.writePage ATSAM3X8E (fun _ => 1) 1 (EEFCFlash.page_buffer_a ATSAM3X8E) 0 5).2.2
      = [(0x5a <<< 24) ||| (5 <<< 8) ||| 0x3] := by
  decide

/-- Claim C3 (code bug): a 16-byte image on the 4-page, 2-plane test
profile needs `ceil(16/4) = 4` pages and fits the chip, yet `write` streams
only 3 pages before aborting with the `cmdL` `NameError` raised when page 2
(the first page of the second plane) is programmed. -/
theorem write_streams_fewer_pages_than_claimed :
    ((List.replicate 16 7 : List Nat).length + tinyChip.size - 1) / tinyChip.size = 4
  ∧ 4 ≤ tinyChip.pages
  ∧ (EEFCFlash.write tinyChip (fun _ => 1) 1 (List.replicate 16 7)).1 = Out.err Err.nameErrorCmdL
  ∧ (bwAddrs (EEFCFlash.write tinyChip (fun _ => 1) 1 (List.replicate 16 7)).2).length = 3 := by
  decide

/-- Claim C4: an image strictly larger than `page_size * chip.pages` makes
`write` fail with the capacity error before the page loop, with an empty
event trace: no block write, no applet word write or go, and no
flash-controller command. -/
theorem write_capacity_error (chip : Chip) (env : Nat → Nat) (fuel : Nat) (file : List Nat)
    (hs : 0 < chip.size) (hbig : chip.size * chip.pages < file.length) :
    EEFCFlash.write chip env fuel file = (Out.err Err.fileTooBig, []) := by
  have key : (chip.pages + 1) * chip.size ≤ file.length + chip.size - 1 := by
    have h1 : (chip.pages + 1) * chip.size = chip.size * chip.pages + chip.size := by ring
    omega
  have h : chip.pages + 1 ≤ (file.length + chip.size - 1) / chip.size :=
    (Nat.le_div_iff_mul_le hs).2 key
  simp only [EEFCFlash.write]
  rw [if_pos (by omega : (file.length + chip.size - 1) / chip.size > chip.pages)]

/-- Witness for C4: 17 bytes on the 16-byte-capacity test profile. -/
theorem write_capacity_error_witness :
    0 < tinyChip.size
  ∧ tinyChip.size * tinyChip.pages < (List.replicate 17 0 : List Nat).length
  ∧ EEFCFlash.write tinyChip (fun _ => 1) 1 (List.replicate 17 0) = (Out.err Err.fileTooBig, []) :=
  ⟨by decide, by decide,
   write_capacity_error tinyChip (fun _ => 1) 1 (List.replicate 17 0) (by decide) (by decide)⟩

/-- Every event `waitFSR` itself contributes to the trace is a register
read, so any `filterMap` that ignores reads returns nothing on it. -/
lemma filterMap_waitFSRGo_nil {β : Type} (f : Ev → Option β)
    (hf : ∀ a v, f (Ev.readReg a v) = none) (planes regs : Nat) (env : Nat → Nat) :
    ∀ fuel tries rc fsr1,
      ((EEFCFlash.waitFSRGo planes regs env tries rc fsr1 fuel).2.2).filterMap f = [] := by
  intro fuel
  induction fuel with
  | zero => intro tries rc fsr1; rfl
  | succ fu ih =>
    intro tries rc fsr1
    simp only [EEFCFlash.waitFSRGo]
    split_ifs with h1 h2 h3 h4 h5 h6 h7 h8 <;>
      simp [List.filterMap_append, hf, ih tries (rc + 2) (env (rc + 1)),
            ih tries (rc + 1) fsr1]

/-- The toggle `if on_buffer == page_buffer_a then page_buffer_b else
page_buffer_a` advances the alternation by one page. -/
lemma altBuf_toggle (chip : Chip) (hs : 0 < chip.size) (n : Nat) :
    (if altBuf chip n = EEFCFlash.page_buffer_a chip then EEFCFlash.page_buffer_b chip
     else EEFCFlash.page_buffer_a chip) = altBuf chip (n + 1) := by
  unfold altBuf
  by_cases hn : n % 2 = 0
  · rw [if_pos hn, if_pos rfl, if_neg (by omega : ¬(n + 1) % 2 = 0)]
  · rw [if_neg hn]
    have hne : EEFCFlash.page_buffer_b chip ≠ EEFCFlash.page_buffer_a chip := by
      unfold EEFCFlash.page_buffer_b
      omega
    rw [if_neg hne, if_pos (by omega : (n + 1) % 2 = 0)]

/-- Lemma: `writePage` never performs a block write. -/
lemma bwAddrs_writePage (chip : Chip) (env : Nat → Nat) (fuel onBuf rc page : Nat) :
    bwAddrs (EEFCFlash.writePage chip env fuel onBuf rc page).2.2 = [] := by
  have hw := filterMap_waitFSRGo_nil (fun e => match e with
    | Ev.blockWrite addr _ => some addr
    | _ => none) (fun a v => rfl) chip.planes chip.registers_addr env fuel 0 rc 1
  simp only [EEFCFlash.writePage]
  split_ifs with h hpl <;> [rfl; skip; skip] <;> split <;>
    simp [bwAddrs, List.filterMap_append, WordCopyApplet.setDestination,
      WordCopyApplet.setSource, WordCopyApplet.run, SamBA.writeWord, SamBA.go,
      EEFCFlash.writeFCR0, EEFCFlash.waitFSR, hw]

/-- In-range `writePage` writes the applet's source slot exactly once, with
the staging buffer it was given, and the destination slot exactly once, with
`flash_base + page * page_size` — in every outcome (success, lock error,
timeout-spin, `cmdL` `NameError`). -/
lemma srcDst_writePage (chip : Chip) (env : Nat → Nat) (fuel onBuf rc page : Nat)
    (hlt : page < chip.pages)
    (h1 : chip.registers_addr + EEFCFlash.EEFC0_FCR ≠ chip.user + WordCopyApplet.src_ptr)
    (h2 : chip.registers_addr + EEFCFlash.EEFC0_FCR ≠ chip.user + WordCopyApplet.dst_ptr) :
    srcVals chip (EEFCFlash.writePage chip env fuel onBuf rc page).2.2 = [onBuf]
  ∧ dstVals chip (EEFCFlash.writePage chip env fuel onBuf rc page).2.2 =
      [chip.address + page * chip.size] := by
  have hsrc := filterMap_waitFSRGo_nil (fun e => match e with
    | Ev.writeWord addr v =>
        if addr = chip.user + WordCopyApplet.src_ptr then some v else none
    | _ => none) (fun a v => rfl) chip.planes chip.registers_addr env fuel 0 rc 1
  have hdst := filterMap_waitFSRGo_nil (fun e => match e with
    | Ev.writeWord addr v =>
        if addr = chip.user + WordCopyApplet.dst_ptr then some v else none
    | _ => none) (fun a v => rfl) chip.planes chip.registers_addr env fuel 0 rc 1
  have hsd : chip.user + WordCopyApplet.dst_ptr ≠ chip.user + WordCopyApplet.src_ptr := by
    unfold WordCopyApplet.dst_ptr WordCopyApplet.src_ptr
    omega
  have hds : chip.user + WordCopyApplet.src_ptr ≠ chip.user + WordCopyApplet.dst_ptr := by
    unfold WordCopyApplet.dst_ptr WordCopyApplet.src_ptr
    omega
  have hrs : chip.user + WordCopyApplet.reset_ptr ≠ chip.user + WordCopyApplet.src_ptr := by
    unfold WordCopyApplet.reset_ptr WordCopyApplet.src_ptr
    omega
  have hrd : chip.user + WordCopyApplet.reset_ptr ≠ chip.user + WordCopyApplet.dst_ptr := by
    unfold WordCopyApplet.reset_ptr WordCopyApplet.dst_ptr
    omega
  simp only [EEFCFlash.writePage]
  rw [if_neg (by omega : ¬page ≥ chip.pages)]
  constructor <;> (split_ifs with hpl <;> split) <;>
    simp [srcVals, dstVals, List.filterMap_append, WordCopyApplet.setDestination,
      WordCopyApplet.setSource, WordCopyApplet.run, SamBA.writeWord, SamBA.go,
      EEFCFlash.writeFCR0, EEFCFlash.waitFSR, hsrc, hdst, hsd, hds, hrs, hrd, h1, h2]

/-- One iteration of the page loop always contributes the block write of
the (possibly padded) chunk followed by `writePage`'s events; afterwards it
either stops or continues with the toggled buffer. -/
lemma writeLoop_succ_trace (chip : Chip) (env : Nat → Nat) (fuel : Nat)
    (rest : List Nat) (k' page_num onBuf rc : Nat) :
    ∃ r : List Ev,
      (EEFCFlash.writeLoop chip env fuel rest (k' + 1) page_num onBuf rc).2 =
        SamBA.write onBuf
          (if (rest.take chip.size).length < chip.size
           then rest.take chip.size ++
                List.replicate (chip.size - (rest.take chip.size).length) 0
           else rest.take chip.size) ++
        (EEFCFlash.writePage chip env fuel onBuf rc page_num).2.2 ++ r
    ∧ (r = [] ∨
       r = (EEFCFlash.writeLoop chip env fuel (rest.drop chip.size) k' (page_num + 1)
              (if onBuf = EEFCFlash.page_buffer_a chip then EEFCFlash.page_buffer_b chip
               else EEFCFlash.page_buffer_a chip)
              (EEFCFlash.writePage chip env fuel onBuf rc page_num).2.1).2) := by
  simp only [EEFCFlash.writeLoop]
  split
  · by_cases hdone : (rest.take chip.size).length < chip.size
    · refine ⟨[], ?_, Or.inl rfl⟩
      rw [if_pos hdone, List.append_nil]
    · refine ⟨_, ?_, Or.inr rfl⟩
      rw [if_neg hdone]
  · exact ⟨[], by simp, Or.inl rfl⟩
  · exact ⟨[], by simp, Or.inl rfl⟩

lemma bwAddrs_append (s t : List Ev) :
    bwAddrs (s ++ t) = bwAddrs s ++ bwAddrs t := by
  simp [bwAddrs, List.filterMap_append]

lemma srcVals_append (chip : Chip) (s t : List Ev) :
    srcVals chip (s ++ t) = srcVals chip s ++ srcVals chip t := by
  simp [srcVals, List.filterMap_append]

lemma dstVals_append (chip : Chip) (s t : List Ev) :
    dstVals chip (s ++ t) = dstVals chip s ++ dstVals chip t := by
  simp [dstVals, List.filterMap_append]

lemma bwAddrs_samba_write (addr : Nat) (data : List Nat) :
    bwAddrs (SamBA.write addr data) = [addr] := rfl

/-- Through the page loop, block-write number `j` (starting the loop at
alternation position `n`) targets `altBuf (n + j)`. -/
lemma writeLoop_bwAddrs_alt (chip : Chip) (env : Nat → Nat) (fuel : Nat) (hs : 0 < chip.size) :
    ∀ k rest page_num n rc j,
      j < (bwAddrs (EEFCFlash.writeLoop chip env fuel rest k page_num (altBuf chip n) rc).2).length →
      (bwAddrs (EEFCFlash.writeLoop chip env fuel rest k page_num (altBuf chip n) rc).2).getD j 0 =
        altBuf chip (n + j) := by
  intro k
  induction k with
  | zero =>
    intro rest pn n rc j hj
    simp [EEFCFlash.writeLoop, bwAddrs] at hj
  | succ k' ih =>
    intro rest pn n rc j hj
    obtain ⟨r, htr, hr⟩ := writeLoop_succ_trace chip env fuel rest k' pn (altBuf chip n) rc
    rw [htr] at hj ⊢
    rw [bwAddrs_append, bwAddrs_append, bwAddrs_writePage, bwAddrs_samba_write] at hj ⊢
    simp only [List.append_nil] at hj ⊢
    rcases hr with hr | hr
    · subst hr
      simp only [bwAddrs, List.filterMap_nil] at hj ⊢
      have hj0 : j = 0 := by
        simp at hj
        omega
      subst hj0
      simp [Nat.add_zero]
    · subst hr
      rw [altBuf_toggle chip hs n] at hj ⊢
      match j with
      | 0 => simp
      | j' + 1 =>
        simp only [List.cons_append, List.nil_append, List.getD_cons_succ,
          List.length_cons] at hj ⊢
        have := ih (rest.drop chip.size) (pn + 1) (n + 1)
          (EEFCFlash.writePage chip env fuel (altBuf chip n) rc pn).2.1 j' (by omega)
        rw [this]
        congr 1
        omega

/-- Claim C6: staging-buffer selection alternates deterministically and
independently of the chip's plane count (the theorem constrains no field of
`chip` beyond `size > 0`): buffer A sits immediately after the applet code,
buffer B immediately after buffer A, and block write number `j` of any
programmed image targets buffer A for even `j`, buffer B for odd `j` — so
exactly one buffer is current at any time. -/
theorem write_buffer_alternation (chip : Chip) (env : Nat → Nat) (fuel : Nat) (file : List Nat)
    (hs : 0 < chip.size) :
    EEFCFlash.page_buffer_a chip = chip.user + WordCopyApplet.code.length
  ∧ EEFCFlash.page_buffer_b chip = EEFCFlash.page_buffer_a chip + chip.size
  ∧ ∀ j, j < (bwAddrs (EEFCFlash.write chip env fuel file).2).length →
      (bwAddrs (EEFCFlash.write chip env fuel file).2).getD j 0 = altBuf chip j := by
  refine ⟨rfl, rfl, ?_⟩
  intro j hj
  simp only [EEFCFlash.write] at hj ⊢
  split_ifs at hj ⊢ with hcap
  · simp [bwAddrs] at hj
  · have ha : EEFCFlash.page_buffer_a chip = altBuf chip 0 := by
      simp [altBuf]
    rw [ha] at hj ⊢
    have := writeLoop_bwAddrs_alt chip env fuel hs _ file 0 0 0 j hj
    simpa using this

lemma srcVals_samba_write (chip : Chip) (addr : Nat) (data : List Nat) :
    srcVals chip (SamBA.write addr data) = [] := rfl

lemma dstVals_samba_write (chip : Chip) (addr : Nat) (data : List Nat) :
    dstVals chip (SamBA.write addr data) = [] := rfl

/-- Through the page loop, the source-slot writes coincide with the
block-write addresses (same buffer in the same iteration), and the `j`-th
destination-slot write is `flash_base + (page_num + j) * page_size`. -/
lemma writeLoop_srcDst (chip : Chip) (env : Nat → Nat) (fuel : Nat)
    (h1 : chip.registers_addr + EEFCFlash.EEFC0_FCR ≠ chip.user + WordCopyApplet.src_ptr)
    (h2 : chip.registers_addr + EEFCFlash.EEFC0_FCR ≠ chip.user + WordCopyApplet.dst_ptr) :
    ∀ k rest page_num onBuf rc, page_num + k ≤ chip.pages →
      srcVals chip (EEFCFlash.writeLoop chip env fuel rest k page_num onBuf rc).2 =
        bwAddrs (EEFCFlash.writeLoop chip env fuel rest k page_num onBuf rc).2
    ∧ (dstVals chip (EEFCFlash.writeLoop chip env fuel rest k page_num onBuf rc).2).length =
        (bwAddrs (EEFCFlash.writeLoop chip env fuel rest k page_num onBuf rc).2).length
    ∧ ∀ j, j < (dstVals chip (EEFCFlash.writeLoop chip env fuel rest k page_num onBuf rc).2).length →
        (dstVals chip (EEFCFlash.writeLoop chip env fuel rest k page_num onBuf rc).2).getD j 0 =
          chip.address + (page_num + j) * chip.size := by
  intro k
  induction k with
  | zero =>
    intro rest pn onBuf rc hinv
    refine ⟨rfl, rfl, ?_⟩
    intro j hj
    simp [EEFCFlash.writeLoop, dstVals] at hj
  | succ k' ih =>
    intro rest pn onBuf rc hinv
    obtain ⟨r, htr, hr⟩ := writeLoop_succ_trace chip env fuel rest k' pn onBuf rc
    obtain ⟨hsv, hdv⟩ := srcDst_writePage chip env fuel onBuf rc pn (by omega) h1 h2
    rw [htr]
    rw [srcVals_append, srcVals_append, srcVals_samba_write, hsv,
        bwAddrs_append, bwAddrs_append, bwAddrs_samba_write, bwAddrs_writePage,
        dstVals_append, dstVals_append, dstVals_samba_write, hdv]
    simp only [List.nil_append, List.append_nil, List.cons_append,
      List.singleton_append, List.length_cons]
    rcases hr with hr | hr
    · subst hr
      refine ⟨rfl, rfl, ?_⟩
      intro j hj
      have hj0 : j = 0 := by
        simp only [dstVals, List.filterMap_nil, List.length_cons, List.length_nil] at hj
        omega
      subst hj0
      simp
    · subst hr
      obtain ⟨ihs, ihl, ihd⟩ := ih (rest.drop chip.size) (pn + 1)
        (if onBuf = EEFCFlash.page_buffer_a chip then EEFCFlash.page_buffer_b chip
         else EEFCFlash.page_buffer_a chip)
        (EEFCFlash.writePage chip env fuel onBuf rc pn).2.1 (by omega)
      refine ⟨by rw [ihs], by rw [ihl], ?_⟩
      intro j hj
      match j with
      | 0 => simp
      | j' + 1 =>
        simp only [List.getD_cons_succ]
        rw [ihd j' (by simpa using hj)]
        have he : pn + 1 + j' = pn + (j' + 1) := by omega
        rw [he]

/-- Claim C9: in every iteration of the page loop, the source address
`writePage` configures into the applet equals the staging-buffer address the
page's bytes were just streamed to (`srcVals = bwAddrs`, position by
position — which also shows the buffer toggle happens only after `writePage`
was issued), and the destination for iteration `j` is
`flash_base + j * page_size`.  The two inequality hypotheses only rule out
the flash-controller command register aliasing the applet's parameter
slots, which holds for every `CHIP_TABLE` profile. -/
theorem write_src_dst_pairing (chip : Chip) (env : Nat → Nat) (fuel : Nat) (file : List Nat)
    (hcap : (file.length + chip.size - 1) / chip.size ≤ chip.pages)
    (h1 : chip.registers_addr + EEFCFlash.EEFC0_FCR ≠ chip.user + WordCopyApplet.src_ptr)
    (h2 : chip.registers_addr + EEFCFlash.EEFC0_FCR ≠ chip.user + WordCopyApplet.dst_ptr) :
    srcVals chip (EEFCFlash.write chip env fuel file).2 =
      bwAddrs (EEFCFlash.write chip env fuel file).2
  ∧ (dstVals chip (EEFCFlash.write chip env fuel file).2).length =
      (bwAddrs (EEFCFlash.write chip env fuel file).2).length
  ∧ ∀ j, j < (dstVals chip (EEFCFlash.write chip env fuel file).2).length →
      (dstVals chip (EEFCFlash.write chip env fuel file).2).getD j 0 =
        chip.address + j * chip.size := by
  simp only [EEFCFlash.write]
  rw [if_neg (by omega : ¬(file.length + chip.size - 1) / chip.size > chip.pages)]
  obtain ⟨hsv, hlv, hdv⟩ := writeLoop_srcDst chip env fuel h1 h2
    ((file.length + chip.size - 1) / chip.size) file 0
    (EEFCFlash.page_buffer_a chip) 0 (by omega)
  refine ⟨hsv, hlv, ?_⟩
  intro j hj
  rw [hdv j hj]
  rw [show (0 : Nat) + j = j from by omega]

theorem write_src_dst_pairing_witness :
    ((List.replicate 10 3 : List Nat).length + tinyChip.size - 1) / tinyChip.size ≤ tinyChip.pages
  ∧ tinyChip.registers_addr + EEFCFlash.EEFC0_FCR ≠ tinyChip.user + WordCopyApplet.src_ptr
  ∧ tinyChip.registers_addr + EEFCFlash.EEFC0_FCR ≠ tinyChip.user + WordCopyApplet.dst_ptr
  ∧ srcVals tinyChip (EEFCFlash.write tinyChip (fun _ => 1) 1 (List.replicate 10 3)).2 =
      bwAddrs (EEFCFlash.write tinyChip (fun _ => 1) 1 (List.replicate 10 3)).2 :=
  ⟨by decide, by decide, by decide,
   (write_src_dst_pairing tinyChip (fun _ => 1) 1 (List.replicate 10 3)
      (by decide) (by decide) (by decide)).1⟩

theorem write_buffer_alternation_witness :
    0 < tinyChip.size
  ∧ 2 < (bwAddrs (EEFCFlash.write tinyChip (fun _ => 1) 1 (List.replicate 10 3)).2).length
  ∧ (bwAddrs (EEFCFlash.write tinyChip (fun _ => 1) 1 (List.replicate 10 3)).2).getD 2 0 =
      altBuf tinyChip 2 :=
  ⟨by decide, by decide,
   (write_buffer_alternation tinyChip (fun _ => 1) 1 (List.replicate 10 3) (by decide)).2.2 2
     (by decide)⟩

lemma wait1_aux (regs : Nat) (env : Nat → Nat) :
    ∀ k rc fuel, k < fuel →
      (∀ j, j < k → env (rc + j) &&& (1 <<< 2) = 0 ∧ env (rc + j) &&& 0x1 = 0) →
      ( (env (rc + k) &&& (1 <<< 2) ≠ 0 →
          (EEFCFlash.waitFSRGo 1 regs env 0 rc 1 fuel).1 = Out.err Err.flashLock)
      ∧ (env (rc + k) &&& (1 <<< 2) = 0 → env (rc + k) &&& 0x1 ≠ 0 →
          (EEFCFlash.waitFSRGo 1 regs env 0 rc 1 fuel).1 = Out.ok ()) ) := by
  intro k
  induction k with
  | zero =>
    intro rc fuel hf hq
    obtain ⟨f, rfl⟩ : ∃ f, fuel = f + 1 := ⟨fuel - 1, by omega⟩
    constructor
    · intro hl
      rw [Nat.add_zero] at hl
      simp only [EEFCFlash.waitFSRGo]
      rw [if_pos (by omega : (0 : Nat) ≤ 500), if_pos hl]
    · intro h0 h1c
      rw [Nat.add_zero] at h0 h1c
      have hcond : env rc &&& 1 &&& 0x1 ≠ 0 := by
        have h11 : (1 &&& 0x1 : Nat) = 0x1 := rfl
        rw [Nat.and_assoc, h11]
        exact h1c
      simp only [EEFCFlash.waitFSRGo]
      rw [if_pos (by omega : (0 : Nat) ≤ 500), if_neg (not_not_intro h0),
          if_neg (by omega : ¬(1 : Nat) = 2), if_pos hcond]
  | succ k' ih =>
    intro rc fuel hf hq
    obtain ⟨f, rfl⟩ : ∃ f, fuel = f + 1 := ⟨fuel - 1, by omega⟩
    have hq0 := hq 0 (by omega)
    rw [Nat.add_zero] at hq0
    have hnr : ¬env rc &&& 1 &&& 0x1 ≠ 0 := by
      have h11 : (1 &&& 0x1 : Nat) = 0x1 := rfl
      rw [Nat.and_assoc, h11]
      exact not_not_intro hq0.2
    have step : (EEFCFlash.waitFSRGo 1 regs env 0 rc 1 (f + 1)).1 =
        (EEFCFlash.waitFSRGo 1 regs env 0 (rc + 1) 1 f).1 := by
      simp only [EEFCFlash.waitFSRGo]
      rw [if_pos (by omega : (0 : Nat) ≤ 500), if_neg (not_not_intro hq0.1),
          if_neg (by omega : ¬(1 : Nat) = 2), if_neg hnr,
          if_neg (by omega : ¬(0 : Nat) > 500)]
    have hq' : ∀ j, j < k' → env (rc + 1 + j) &&& (1 <<< 2) = 0 ∧
        env (rc + 1 + j) &&& 0x1 = 0 := by
      intro j hj
      have h := hq (j + 1) (by omega)
      rw [show rc + (j + 1) = rc + 1 + j from by omega] at h
      exact h
    have hmain := ih (rc + 1) f (by omega) hq'
    have hidx : rc + 1 + k' = rc + (k' + 1) := by omega
    constructor
    · intro hl
      rw [step]
      exact hmain.1 (by rw [hidx]; exact hl)
    · intro h0 h1c
      rw [step]
      exact hmain.2 (by rw [hidx]; exact h0) (by rw [hidx]; exact h1c)

lemma wait2_aux (regs : Nat) (env : Nat → Nat) :
    ∀ k rc c fuel, k < fuel →
      (∀ j, j < k → env (rc + 2 * j) &&& (1 <<< 2) = 0 ∧
          env (rc + 2 * j + 1) &&& (1 <<< 2) = 0 ∧
          env (rc + 2 * j) &&& env (rc + 2 * j + 1) &&& 0x1 = 0) →
      ( ((env (rc + 2 * k) &&& (1 <<< 2) ≠ 0 ∨
          (env (rc + 2 * k) &&& (1 <<< 2) = 0 ∧ env (rc + 2 * k + 1) &&& (1 <<< 2) ≠ 0)) →
          (EEFCFlash.waitFSRGo 2 regs env 0 rc c fuel).1 = Out.err Err.flashLock)
      ∧ (env (rc + 2 * k) &&& (1 <<< 2) = 0 → env (rc + 2 * k + 1) &&& (1 <<< 2) = 0 →
          env (rc + 2 * k) &&& env (rc + 2 * k + 1) &&& 0x1 ≠ 0 →
          (EEFCFlash.waitFSRGo 2 regs env 0 rc c fuel).1 = Out.ok ()) ) := by
  intro k
  induction k with
  | zero =>
    intro rc c fuel hf hq
    obtain ⟨f, rfl⟩ : ∃ f, fuel = f + 1 := ⟨fuel - 1, by omega⟩
    have hz : rc + 2 * 0 = rc := by omega
    rw [hz]
    constructor
    · intro hl
      simp only [EEFCFlash.waitFSRGo]
      rcases hl with hl0 | ⟨hok, hl1⟩
      · rw [if_pos (by omega : (0 : Nat) ≤ 500), if_pos hl0]
      · rw [if_pos (by omega : (0 : Nat) ≤ 500), if_neg (not_not_intro hok),
            if_pos trivial, if_pos hl1]
    · intro h0 h1c hr
      simp only [EEFCFlash.waitFSRGo]
      rw [if_pos (by omega : (0 : Nat) ≤ 500), if_neg (not_not_intro h0),
          if_pos trivial, if_neg (not_not_intro h1c), if_pos hr]
  | succ k' ih =>
    intro rc c fuel hf hq
    obtain ⟨f, rfl⟩ : ∃ f, fuel = f + 1 := ⟨fuel - 1, by omega⟩
    have hq0 := hq 0 (by omega)
    rw [show rc + 2 * 0 = rc from by omega] at hq0
    obtain ⟨hq00, hq01, hq0r⟩ := hq0
    have step : (EEFCFlash.waitFSRGo 2 regs env 0 rc c (f + 1)).1 =
        (EEFCFlash.waitFSRGo 2 regs env 0 (rc + 2) (env (rc + 1)) f).1 := by
      simp only [EEFCFlash.waitFSRGo]
      rw [if_pos (by omega : (0 : Nat) ≤ 500), if_neg (not_not_intro hq00),
          if_pos trivial, if_neg (not_not_intro hq01),
          if_neg (not_not_intro hq0r), if_neg (by omega : ¬(0 : Nat) > 500)]
    have hq' : ∀ j, j < k' → env (rc + 2 + 2 * j) &&& (1 <<< 2) = 0 ∧
        env (rc + 2 + 2 * j + 1) &&& (1 <<< 2) = 0 ∧
        env (rc + 2 + 2 * j) &&& env (rc + 2 + 2 * j + 1) &&& 0x1 = 0 := by
      intro j hj
      have h := hq (j + 1) (by omega)
      rw [show rc + 2 * (j + 1) = rc + 2 + 2 * j from by omega] at h
      exact h
    have hmain := ih (rc + 2) (env (rc + 1)) f (by omega) hq'
    have hidx : rc + 2 + 2 * k' = rc + 2 * (k' + 1) := by omega
    rw [hidx] at hmain
    constructor
    · intro hl
      rw [step]
      exact hmain.1 hl
    · intro h0 h1c hr
      rw [step]
      exact hmain.2 h0 h1c hr

lemma wait1_no_plane1_read (regs : Nat) (env : Nat → Nat) :
    ∀ fuel tries rc fsr1 v,
      Ev.readReg (regs + EEFCFlash.EEFC1_FSR) v ∉
        (EEFCFlash.waitFSRGo 1 regs env tries rc fsr1 fuel).2.2 := by
  intro fuel
  induction fuel with
  | zero =>
    intro tries rc fsr1 v
    simp [EEFCFlash.waitFSRGo]
  | succ f ih =>
    intro tries rc fsr1 v
    have haddr : regs + EEFCFlash.EEFC1_FSR ≠ regs + EEFCFlash.EEFC0_FSR := by
      unfold EEFCFlash.EEFC0_FSR EEFCFlash.EEFC1_FSR
      omega
    simp only [EEFCFlash.waitFSRGo]
    split_ifs with h1 h2 h3 h4 <;>
      simp_all [List.mem_append, List.mem_singleton, ih tries (rc + 1) fsr1 v,
        Ev.readReg.injEq]

/-- Claim C5: for any sequence of sampled status values, `waitFSR` decides
at the first non-quiet poll: if after `k` quiet polls (no lock bit anywhere
and not all planes ready) some present plane shows bit 2, it raises the
lock error immediately — regardless of ready bits and before any retry
bound; if instead every present plane shows bit 0 (and no lock), it returns
success.  On one-plane chips the second status register is never read and
the outcome depends only on plane 0's values. -/
theorem waitFSR_first_poll_semantics (regs : Nat) (env : Nat → Nat) (k fuel : Nat)
    (hfuel : k < fuel) :
    ( (∀ j, j < k → quietPoll2 env j) →
        ( (env (2 * k) &&& (1 <<< 2) ≠ 0 ∨
           (env (2 * k) &&& (1 <<< 2) = 0 ∧ env (2 * k + 1) &&& (1 <<< 2) ≠ 0)) →
            (EEFCFlash.waitFSR 2 regs env 0 fuel).1 = Out.err Err.flashLock )
      ∧ ( env (2 * k) &&& (1 <<< 2) = 0 → env (2 * k + 1) &&& (1 <<< 2) = 0 →
            env (2 * k) &&& env (2 * k + 1) &&& 0x1 ≠ 0 →
            (EEFCFlash.waitFSR 2 regs env 0 fuel).1 = Out.ok () ) )
  ∧ ( (∀ j, j < k → quietPoll1 env j) →
        ( env k &&& (1 <<< 2) ≠ 0 →
            (EEFCFlash.waitFSR 1 regs env 0 fuel).1 = Out.err Err.flashLock )
      ∧ ( env k &&& (1 <<< 2) = 0 → env k &&& 0x1 ≠ 0 →
            (EEFCFlash.waitFSR 1 regs env 0 fuel).1 = Out.ok () ) )
  ∧ (∀ v, Ev.readReg (regs + EEFCFlash.EEFC1_FSR) v ∉
        (EEFCFlash.waitFSR 1 regs env 0 fuel).2.2) := by
  refine ⟨?_, ?_, ?_⟩
  · intro hq
    have hq' : ∀ j, j < k → env (0 + 2 * j) &&& (1 <<< 2) = 0 ∧
        env (0 + 2 * j + 1) &&& (1 <<< 2) = 0 ∧
        env (0 + 2 * j) &&& env (0 + 2 * j + 1) &&& 0x1 = 0 := by
      intro j hj
      rw [Nat.zero_add]
      exact hq j hj
    have h := wait2_aux regs env k 0 1 fuel hfuel hq'
    rw [Nat.zero_add] at h
    exact h
  · intro hq
    have hq' : ∀ j, j < k → env (0 + j) &&& (1 <<< 2) = 0 ∧ env (0 + j) &&& 0x1 = 0 := by
      intro j hj
      rw [Nat.zero_add]
      exact hq j hj
    have h := wait1_aux regs env k 0 fuel hfuel hq'
    rw [Nat.zero_add] at h
    exact h
  · intro v
    exact wait1_no_plane1_read regs env fuel 0 0 1 v

/-- Witness for C5: a lock bit on the very first poll of a two-plane wait
raises the lock error; an immediately-ready one-plane wait succeeds on its
first poll without ever reading plane 1's status register. -/
theorem waitFSR_first_poll_semantics_witness :
    (0 : Nat) < 1
  ∧ (EEFCFlash.waitFSR 2 0x400e0a00 (fun _ => 4) 0 1).1 = Out.err Err.flashLock
  ∧ (EEFCFlash.waitFSR 1 0x400e0a00 (fun _ => 1) 0 1).1 = Out.ok ()
  ∧ Ev.readReg (0x400e0a00 + EEFCFlash.EEFC1_FSR) 1 ∉
      (EEFCFlash.waitFSR 1 0x400e0a00 (fun _ => 1) 0 1).2.2 :=
  ⟨by decide,
   ((waitFSR_first_poll_semantics 0x400e0a00 (fun _ => 4) 0 1 (by decide)).1
      (fun j hj => absurd hj (Nat.not_lt_zero j))).1 (Or.inl (by decide)),
   ((waitFSR_first_poll_semantics 0x400e0a00 (fun _ => 1) 0 1 (by decide)).2.1
      (fun j hj => absurd hj (Nat.not_lt_zero j))).2 (by decide) (by decide),
   (waitFSR_first_poll_semantics 0x400e0a00 (fun _ => 1) 0 1 (by decide)).2.2 1⟩

end Pyba
